import Mathlib

/-!
Verification of the Solana USDC transfer indexer (`src/indexer.rs`).

The development shallowly embeds the two functions of the source,
`index_usdc_transfers` and `process_transaction`, as pure Lean functions.
External collaborators (the RPC client, address/signature parsing from the
`solana_sdk` crate, and `chrono` timestamp validation) are modelled as
function parameters; machine floats (`f64` token amounts) are modelled as
exact rationals, which is faithful for the finite values the code compares
and subtracts; `DateTime<Utc>` values are modelled as integer seconds,
whose ordering agrees with the chrono ordering.  The driver additionally
returns the ordered trace of external calls it performed, so that
filter-before-fetch and fail-before-any-call properties are statable.
-/

/-- `TransferType` from `models.rs` (referenced by `indexer.rs`). -/
inductive TransferType where
  | Received : TransferType
  | Sent : TransferType
deriving DecidableEq, Repr

/-- `Transfer` from `models.rs`: date (seconds), amount, type, signature. -/
structure Transfer where
  date : Int
  amount : ℚ
  transfer_type : TransferType
  signature : String
deriving DecidableEq, Repr

/-- `UiTokenAmount`: the `ui_amount : Option<f64>` field is the only one read. -/
structure UiTokenAmount where
  ui_amount : Option ℚ
deriving DecidableEq, Repr

/-- A pre/post token-balance table entry (`UiTransactionTokenBalance`). -/
structure TokenBalance where
  account_index : Nat
  mint : String
  owner : String
  ui_token_amount : UiTokenAmount
deriving DecidableEq, Repr

/-- One parsed account key of the transaction message, with its signer flag. -/
structure AccountKey where
  pubkey : String
  signer : Bool
deriving DecidableEq, Repr

/-- Transaction metadata: the two token-balance tables (`Option` as in the
source, where `meta.pre_token_balances` / `post_token_balances` are optional
and defaulted to the empty vector). -/
structure TxMeta where
  pre_token_balances : Option (List TokenBalance)
  post_token_balances : Option (List TokenBalance)
deriving DecidableEq, Repr

/-- A decoded transaction (`EncodedConfirmedTransactionWithStatusMeta`):
optional metadata plus the message account keys. -/
structure Tx where
  meta : Option TxMeta
  account_keys : List AccountKey
deriving DecidableEq, Repr

/-- The `pre_balances.iter().find(...)` join of `process_transaction`
(indexer.rs:105-107): first pre-balance entry with the same account index
and the same mint as the post-balance entry. -/
def matchPre (pre_balances : List TokenBalance) (post_balance : TokenBalance) :
    Option TokenBalance :=
  pre_balances.find? fun pre =>
    pre.account_index == post_balance.account_index && pre.mint == post_balance.mint

/-- `pre_amount` (indexer.rs:109-111): the joined entry's `ui_amount`, with
`unwrap_or(0.0)` both for a missing `ui_amount` and for a missing entry. -/
def preAmountOf (pre_balances : List TokenBalance) (post_balance : TokenBalance) : ℚ :=
  ((matchPre pre_balances post_balance).map fun pre =>
    pre.ui_token_amount.ui_amount.getD 0).getD 0

/-- `post_amount` (indexer.rs:112). -/
def postAmountOf (post_balance : TokenBalance) : ℚ :=
  post_balance.ui_token_amount.ui_amount.getD 0

/-- The body of the `for post_balance in post_balances` loop of
`process_transaction` (indexer.rs:100-141), producing the (zero or one)
records pushed for one post-balance entry. -/
def reconcile_entry (wallet_pubkey usdc_mint_pubkey : String) (tx_time : Int)
    (signature : String) (is_signer : Bool) (pre_balances : List TokenBalance)
    (post_balance : TokenBalance) : List Transfer :=
  if post_balance.mint ≠ usdc_mint_pubkey then []
  else
    let pre_amount := preAmountOf pre_balances post_balance
    let post_amount := postAmountOf post_balance
    if pre_amount ≠ post_amount then
      let amount := |post_amount - pre_amount|
      let transfer_type :=
        if post_amount > pre_amount then TransferType.Received else TransferType.Sent
      if is_signer || post_balance.owner == wallet_pubkey then
        [{ date := tx_time, amount := amount, transfer_type := transfer_type,
           signature := signature }]
      else []
    else []

/-- `is_signer` (indexer.rs:96): the source checks only membership of the
wallet among the account keys and reads no signer flag. -/
def is_signer_of (account_keys : List AccountKey) (wallet_pubkey : String) : Bool :=
  account_keys.any fun key => key.pubkey == wallet_pubkey

/-- `process_transaction` (indexer.rs:80-147): with no metadata, no records;
otherwise fold the per-entry reconciliation over the post-balance table. -/
def process_transaction (tx : Tx) (wallet_pubkey usdc_mint_pubkey : String)
    (tx_time : Int) (signature : String) : List Transfer :=
  match tx.meta with
  | none => []
  | some meta =>
    let pre_balances := meta.pre_token_balances.getD []
    let post_balances := meta.post_token_balances.getD []
    let is_signer := is_signer_of tx.account_keys wallet_pubkey
    post_balances.foldl
      (fun transfers post_balance =>
        transfers ++ reconcile_entry wallet_pubkey usdc_mint_pubkey tx_time signature
          is_signer pre_balances post_balance)
      []

/-- One element of the signature list returned by
`get_signatures_for_address_with_config`: the signature string and its
optional block time (seconds). -/
structure SigInfo where
  signature : String
  block_time : Option Int
deriving DecidableEq, Repr

/-- One external RPC call performed by the driver, recorded in order. -/
inductive ExtCall where
  | listSigs : ExtCall
  | fetchTx : String → ExtCall
deriving DecidableEq, Repr

/-- The `for sig_info in signatures` loop of `index_usdc_transfers`
(indexer.rs:43-74).  `parseSig` models `Signature::from_str` (and the
signature's string rendering), `tsOk` models
`Utc.timestamp_opt(t, 0).single().is_some()`, and `fetch` models
`client.get_transaction`.  The accumulator `transfers` and the call trace
`calls` are threaded; every `?` of the source becomes an error return. -/
def indexLoop (tsOk : Int → Bool) (parseSig : String → Option String)
    (fetch : String → Except String Tx) (wallet_pubkey usdc_mint_pubkey : String)
    (start_time end_time : Int) :
    List SigInfo → List Transfer → List ExtCall →
      Except String (List Transfer) × List ExtCall
  | [], transfers, calls => (Except.ok transfers, calls)
  | sig_info :: rest, transfers, calls =>
    match parseSig sig_info.signature with
    | none => (Except.error ("invalid signature"), calls)
    | some signature =>
      match sig_info.block_time with
      | none =>
        indexLoop tsOk parseSig fetch wallet_pubkey usdc_mint_pubkey start_time end_time
          rest transfers calls
      | some t =>
        if tsOk t then
          if t < start_time ∨ end_time < t then
            indexLoop tsOk parseSig fetch wallet_pubkey usdc_mint_pubkey start_time
              end_time rest transfers calls
          else
            match fetch signature with
            | Except.error e => (Except.error e, calls ++ [ExtCall.fetchTx signature])
            | Except.ok tx =>
              indexLoop tsOk parseSig fetch wallet_pubkey usdc_mint_pubkey start_time
                end_time rest
                (transfers ++
                  process_transaction tx wallet_pubkey usdc_mint_pubkey t signature)
                (calls ++ [ExtCall.fetchTx signature])
        else (Except.error ("Invalid timestamp"), calls)

/-- `index_usdc_transfers` (indexer.rs:13-78).  `parsePubkey` models
`Pubkey::from_str` composed with `to_string` (the string form the body
compares against); `listResult` is the response of
`get_signatures_for_address_with_config`, which may itself be a transport
error.  Returns the result together with the trace of external calls. -/
def index_usdc_transfers (parsePubkey : String → Option String) (tsOk : Int → Bool)
    (parseSig : String → Option String)
    (listResult : Except String (List SigInfo))
    (fetch : String → Except String Tx) (wallet usdc_mint : String)
    (start_time end_time : Int) :
    Except String (List Transfer) × List ExtCall :=
  match parsePubkey wallet with
  | none => (Except.error ("invalid wallet address"), [])
  | some wallet_pubkey =>
    match parsePubkey usdc_mint with
    | none => (Except.error ("invalid mint address"), [])
    | some usdc_mint_pubkey =>
      match listResult with
      | Except.error e => (Except.error e, [ExtCall.listSigs])
      | Except.ok signatures =>
        indexLoop tsOk parseSig fetch wallet_pubkey usdc_mint_pubkey start_time
          end_time signatures [] [ExtCall.listSigs]

/-- Specification-side definition (spec §4.1): the records one listed
signature contributes, in the order the reconciler produced them — empty when
the signature is skipped (no block time, out of window) or its fetch failed. -/
def recordsOfSig (tsOk : Int → Bool) (parseSig : String → Option String)
    (fetch : String → Except String Tx) (wallet_pubkey usdc_mint_pubkey : String)
    (start_time end_time : Int) (sig_info : SigInfo) : List Transfer :=
  match parseSig sig_info.signature with
  | none => []
  | some signature =>
    match sig_info.block_time with
    | none => []
    | some t =>
      if tsOk t then
        if t < start_time ∨ end_time < t then []
        else
          match fetch signature with
          | Except.error _ => []
          | Except.ok tx =>
            process_transaction tx wallet_pubkey usdc_mint_pubkey t signature
      else []

/-! Concrete fixtures used by counterexamples and witnesses. -/

/-- A post-balance entry owned by a third party, in a transaction whose
account keys contain the indexed wallet with the signer flag cleared. -/
def attributionEntry : TokenBalance :=
  { account_index := 1, mint := "M", owner := "X",
    ui_token_amount := { ui_amount := some 5 } }

/-- Transaction for the attribution claim: wallet `W` is among the account
keys but not flagged as a signer, and owns no changed token account. -/
def attributionTx : Tx :=
  { meta := some
      { pre_token_balances := some [],
        post_token_balances := some [attributionEntry] },
    account_keys := [{ pubkey := "W", signer := false }] }

/-- A freshly created token account whose post amount is `2 ^ (-60)`,
far below the `f64` machine epsilon `2 ^ (-52)`. -/
def tinyEntry : TokenBalance :=
  { account_index := 2, mint := "M", owner := "W",
    ui_token_amount := { ui_amount := some (mkRat 1 (2 ^ 60)) } }

/-- Transaction whose only mint-matching delta is the near-zero one. -/
def tinyDeltaTx : Tx :=
  { meta := some
      { pre_token_balances := some [], post_token_balances := some [tinyEntry] },
    account_keys := [] }

/-- A wallet-owned entry whose balance did not change. -/
def zeroDeltaEntry : TokenBalance :=
  { account_index := 7, mint := "M", owner := "W",
    ui_token_amount := { ui_amount := some 0 } }

/-- Pre-balance of the sample account, index 3, 100 units. -/
def samplePre : TokenBalance :=
  { account_index := 3, mint := "M", owner := "W",
    ui_token_amount := { ui_amount := some 100 } }

/-- Post-balance of the sample account, index 3, 150 units. -/
def samplePost : TokenBalance :=
  { account_index := 3, mint := "M", owner := "W",
    ui_token_amount := { ui_amount := some 150 } }

/-- Sample transaction: account index 3 goes from 100 to 150 units of `M`
owned by `W`, who signed it. -/
def sampleTx : Tx :=
  { meta := some
      { pre_token_balances := some [samplePre],
        post_token_balances := some [samplePost] },
    account_keys := [{ pubkey := "W", signer := true }] }

/-- Fetcher answering every signature with the sample transaction. -/
def sampleFetch : String → Except String Tx := fun _ => Except.ok sampleTx

/-- Identity parser: every address or signature string parses to itself. -/
def idParse : String → Option String := fun s => some s

/-- Timestamp conversion that accepts every integer. -/
def allTsOk : Int → Bool := fun _ => true

/-- Sample signature list: one at the window start, one at the window end,
one strictly after the window, one with no block time. -/
def sampleList : List SigInfo :=
  [{ signature := "S1", block_time := some 10 },
   { signature := "S2", block_time := some 20 },
   { signature := "S3", block_time := some 99 },
   { signature := "NB", block_time := none }]

/-- The sample driver run over the window `[10, 20]`. -/
def sampleRun : Except String (List Transfer) × List ExtCall :=
  index_usdc_transfers idParse allTsOk idParse (Except.ok sampleList) sampleFetch
    ("W") ("M") 10 20

/-- Record the sample run produces for signature `S1` (at the window start). -/
def sampleRec1 : Transfer :=
  { date := 10, amount := |(150 : ℚ) - 100|, transfer_type := TransferType.Received,
    signature := "S1" }

/-- Record the sample run produces for signature `S2` (at the window end). -/
def sampleRec2 : Transfer :=
  { date := 20, amount := |(150 : ℚ) - 100|, transfer_type := TransferType.Received,
    signature := "S2" }

/-- A pre-balance entry whose account index matches no post-balance entry of
the sample transaction: a token account emptied and closed mid-transaction. -/
def closedAccount : TokenBalance :=
  { account_index := 9, mint := "M", owner := "W",
    ui_token_amount := { ui_amount := some 100 } }

/-- A pre-balance entry of the right mint at a different account index. -/
def joinDistractor : TokenBalance :=
  { account_index := 1, mint := "M", owner := "A",
    ui_token_amount := { ui_amount := some 7 } }

/-- Address parser that rejects every string. -/
def noParse : String → Option String := fun _ => none

/-- Signature parser that rejects exactly the string `BAD`. -/
def rejectBad : String → Option String :=
  fun s => if s == "BAD" then none else some s

/-- Signature list containing one malformed signature string. -/
def badList : List SigInfo :=
  [{ signature := "S1", block_time := some 10 },
   { signature := "BAD", block_time := some 15 }]

section Lemmas

/-- Folding with append over a list is the flat map appended to the seed. -/
lemma foldl_append_eq_flatMap {α β : Type} (f : α → List β) (l : List α)
    (init : List β) :
    l.foldl (fun acc x => acc ++ f x) init = init ++ l.flatMap f := by
  induction l generalizing init with
  | nil => simp
  | cons x xs ih => simp [List.foldl, ih, List.append_assoc]

/-- `process_transaction` is the flat map of the per-entry reconciliation
over the post-balance table. -/
lemma process_transaction_eq_flatMap (meta : TxMeta) (keys : List AccountKey)
    (wallet_pubkey usdc_mint_pubkey : String) (tx_time : Int) (signature : String) :
    process_transaction ⟨some meta, keys⟩ wallet_pubkey usdc_mint_pubkey tx_time
        signature =
      (meta.post_token_balances.getD []).flatMap
        (reconcile_entry wallet_pubkey usdc_mint_pubkey tx_time signature
          (is_signer_of keys wallet_pubkey) (meta.pre_token_balances.getD [])) := by
  simp [process_transaction, foldl_append_eq_flatMap]

/-- Full characterization of a record produced by the per-entry step. -/
lemma reconcile_entry_spec (wallet_pubkey usdc_mint_pubkey : String) (tx_time : Int)
    (signature : String) (is_signer : Bool) (pre_balances : List TokenBalance)
    (post_balance : TokenBalance) (r : Transfer)
    (hr : r ∈ reconcile_entry wallet_pubkey usdc_mint_pubkey tx_time signature
      is_signer pre_balances post_balance) :
    r.date = tx_time ∧ r.signature = signature ∧
    r.amount = |postAmountOf post_balance - preAmountOf pre_balances post_balance| ∧
    preAmountOf pre_balances post_balance ≠ postAmountOf post_balance ∧
    post_balance.mint = usdc_mint_pubkey ∧
    (is_signer = true ∨ post_balance.owner = wallet_pubkey) ∧
    (r.transfer_type = TransferType.Received ↔
      preAmountOf pre_balances post_balance < postAmountOf post_balance) := by
  unfold reconcile_entry at hr
  by_cases hmint : post_balance.mint = usdc_mint_pubkey
  · by_cases hne : preAmountOf pre_balances post_balance = postAmountOf post_balance
    · simp [hmint, hne] at hr
    · by_cases hattr : (is_signer || post_balance.owner == wallet_pubkey) = true
      · simp only [hmint, hne, hattr, ne_eq, not_true_eq_false, if_false,
          not_false_eq_true, if_true, List.mem_singleton] at hr
        subst hr
        refine ⟨rfl, rfl, rfl, hne, hmint, ?_, ?_⟩
        · rcases Bool.or_eq_true _ _ |>.mp hattr with h | h
          · exact Or.inl h
          · exact Or.inr (by simpa using h)
        · by_cases hlt : preAmountOf pre_balances post_balance <
              postAmountOf post_balance
          · simp [hlt]
          · simp [hlt]
      · simp [hmint, hne, hattr] at hr
  · simp [reconcile_entry, hmint] at hr

/-- Every produced record has strictly positive amount. -/
lemma reconcile_entry_amount_pos (wallet_pubkey usdc_mint_pubkey : String)
    (tx_time : Int) (signature : String) (is_signer : Bool)
    (pre_balances : List TokenBalance) (post_balance : TokenBalance) (r : Transfer)
    (hr : r ∈ reconcile_entry wallet_pubkey usdc_mint_pubkey tx_time signature
      is_signer pre_balances post_balance) :
    0 < r.amount := by
  obtain ⟨-, -, hamt, hne, -⟩ :=
    reconcile_entry_spec _ _ _ _ _ _ _ _ hr
  rw [hamt]
  exact abs_pos.mpr (sub_ne_zero.mpr fun h => hne h.symm)

/-- Date, signature and amount facts for records of a whole transaction. -/
lemma mem_process_transaction (tx : Tx) (wallet_pubkey usdc_mint_pubkey : String)
    (tx_time : Int) (signature : String) (r : Transfer)
    (hr : r ∈ process_transaction tx wallet_pubkey usdc_mint_pubkey tx_time
      signature) :
    r.date = tx_time ∧ r.signature = signature ∧ 0 < r.amount := by
  obtain ⟨ometa, keys⟩ := tx
  cases ometa with
  | none => simp [process_transaction] at hr
  | some meta =>
    rw [process_transaction_eq_flatMap] at hr
    obtain ⟨pb, -, hpb⟩ := List.mem_flatMap.mp hr
    obtain ⟨h1, h2, -⟩ := reconcile_entry_spec _ _ _ _ _ _ _ _ hpb
    exact ⟨h1, h2, reconcile_entry_amount_pos _ _ _ _ _ _ _ _ hpb⟩

/-- The per-entry reconciliation reads the pre-balance table only through
the index-keyed join. -/
lemma reconcile_entry_congr (wallet_pubkey usdc_mint_pubkey : String) (tx_time : Int)
    (signature : String) (is_signer : Bool) (pre1 pre2 : List TokenBalance)
    (post_balance : TokenBalance)
    (h : matchPre pre1 post_balance = matchPre pre2 post_balance) :
    reconcile_entry wallet_pubkey usdc_mint_pubkey tx_time signature is_signer pre1
        post_balance =
      reconcile_entry wallet_pubkey usdc_mint_pubkey tx_time signature is_signer pre2
        post_balance := by
  unfold reconcile_entry preAmountOf
  rw [h]

/-- Pointwise equal per-element functions give equal flat maps. -/
lemma flatMap_congr {α β : Type} {l : List α} {f g : α → List β}
    (h : ∀ x ∈ l, f x = g x) : l.flatMap f = l.flatMap g := by
  induction l with
  | nil => rfl
  | cons x xs ih =>
    simp only [List.flatMap_cons]
    rw [h x (List.mem_cons_self _ _), ih fun y hy => h y (List.mem_cons_of_mem _ hy)]

/-- When the loop returns a result list, it is the seed accumulator followed
by the per-signature contributions in signature-list order. -/
lemma indexLoop_fst_ok (tsOk : Int → Bool) (parseSig : String → Option String)
    (fetch : String → Except String Tx) (w m : String) (a b : Int)
    (sigs : List SigInfo) :
    ∀ (acc : List Transfer) (calls : List ExtCall) (l : List Transfer),
      (indexLoop tsOk parseSig fetch w m a b sigs acc calls).1 = Except.ok l →
      l = acc ++ sigs.flatMap (recordsOfSig tsOk parseSig fetch w m a b) := by
  induction sigs with
  | nil =>
    intro acc calls l h
    simp only [indexLoop] at h
    obtain rfl := Except.ok.inj h
    simp
  | cons si rest ih =>
    intro acc calls l h
    cases hps : parseSig si.signature with
    | none => simp only [indexLoop, hps] at h; exact absurd h (by simp)
    | some sg =>
      cases hbt : si.block_time with
      | none =>
        simp only [indexLoop, hps, hbt] at h
        rw [ih acc calls l h]
        simp [recordsOfSig, hps, hbt]
      | some t =>
        simp only [indexLoop, hps, hbt] at h
        by_cases hts : tsOk t
        · rw [if_pos hts] at h
          by_cases hrange : t < a ∨ b < t
          · rw [if_pos hrange] at h
            rw [ih acc calls l h]
            simp [recordsOfSig, hps, hbt, hts, hrange]
          · rw [if_neg hrange] at h
            cases hf : fetch sg with
            | error e => rw [hf] at h; simp at h
            | ok tx =>
              rw [hf] at h
              rw [ih _ _ l h]
              simp [recordsOfSig, hps, hbt, hts, hrange, hf, List.append_assoc]
        · rw [if_neg hts] at h; simp at h

/-- Every record a signature contributes is dated inside the window. -/
lemma mem_recordsOfSig_date (tsOk : Int → Bool) (parseSig : String → Option String)
    (fetch : String → Except String Tx) (w m : String) (a b : Int) (si : SigInfo)
    (r : Transfer)
    (hr : r ∈ recordsOfSig tsOk parseSig fetch w m a b si) :
    a ≤ r.date ∧ r.date ≤ b := by
  unfold recordsOfSig at hr
  cases hps : parseSig si.signature with
  | none => rw [hps] at hr; simp at hr
  | some sg =>
    rw [hps] at hr
    cases hbt : si.block_time with
    | none => rw [hbt] at hr; simp at hr
    | some t =>
      rw [hbt] at hr
      dsimp only at hr
      by_cases hts : tsOk t
      · rw [if_pos hts] at hr
        by_cases hrange : t < a ∨ b < t
        · rw [if_pos hrange] at hr; simp at hr
        · rw [if_neg hrange] at hr
          push_neg at hrange
          cases hf : fetch sg with
          | error e => rw [hf] at hr; simp at hr
          | ok tx =>
            rw [hf] at hr
            obtain ⟨hdate, -, -⟩ := mem_process_transaction _ _ _ _ _ _ hr
            exact ⟨hdate ▸ le_of_not_lt (fun hc => absurd hrange.1 (by omega)),
              hdate ▸ le_of_not_lt (fun hc => absurd hrange.2 (by omega))⟩
      · rw [if_neg hts] at hr; simp at hr

/-- Every fetch call the loop adds to the trace belongs to an in-window
listed signature. -/
lemma indexLoop_fetch_in_trace (tsOk : Int → Bool) (parseSig : String → Option String)
    (fetch : String → Except String Tx) (w m : String) (a b : Int)
    (sigs : List SigInfo) :
    ∀ (acc : List Transfer) (calls : List ExtCall) (s : String),
      ExtCall.fetchTx s ∈ (indexLoop tsOk parseSig fetch w m a b sigs acc calls).2 →
      ExtCall.fetchTx s ∈ calls ∨
        ∃ si ∈ sigs, parseSig si.signature = some s ∧
          ∃ t, si.block_time = some t ∧ tsOk t = true ∧ a ≤ t ∧ t ≤ b := by
  induction sigs with
  | nil =>
    intro acc calls s h
    simp only [indexLoop] at h
    exact Or.inl h
  | cons si rest ih =>
    intro acc calls s h
    cases hps : parseSig si.signature with
    | none =>
      simp only [indexLoop, hps] at h
      exact Or.inl h
    | some sg =>
      cases hbt : si.block_time with
      | none =>
        simp only [indexLoop, hps, hbt] at h
        rcases ih acc calls s h with hc | ⟨si₀, hmem, hrest⟩
        · exact Or.inl hc
        · exact Or.inr ⟨si₀, List.mem_cons_of_mem _ hmem, hrest⟩
      | some t =>
        simp only [indexLoop, hps, hbt] at h
        by_cases hts : tsOk t
        · rw [if_pos hts] at h
          by_cases hrange : t < a ∨ b < t
          · rw [if_pos hrange] at h
            rcases ih acc calls s h with hc | ⟨si₀, hmem, hrest⟩
            · exact Or.inl hc
            · exact Or.inr ⟨si₀, List.mem_cons_of_mem _ hmem, hrest⟩
          · rw [if_neg hrange] at h
            push_neg at hrange
            cases hf : fetch sg with
            | error e =>
              rw [hf] at h
              dsimp only at h
              rcases List.mem_append.mp h with hc | hc
              · exact Or.inl hc
              · simp only [List.mem_singleton, ExtCall.fetchTx.injEq] at hc
                exact Or.inr ⟨si, List.mem_cons_self _ _,
                  hc ▸ hps, t, hbt, hts,
                  le_of_not_lt (fun hc2 => absurd hrange.1 (by omega)),
                  le_of_not_lt (fun hc2 => absurd hrange.2 (by omega))⟩
            | ok tx =>
              rw [hf] at h
              rcases ih _ _ s h with hc | ⟨si₀, hmem, hrest⟩
              · rcases List.mem_append.mp hc with hc2 | hc2
                · exact Or.inl hc2
                · simp only [List.mem_singleton, ExtCall.fetchTx.injEq] at hc2
                  exact Or.inr ⟨si, List.mem_cons_self _ _,
                    hc2 ▸ hps, t, hbt, hts,
                    le_of_not_lt (fun hc3 => absurd hrange.1 (by omega)),
                    le_of_not_lt (fun hc3 => absurd hrange.2 (by omega))⟩
              · exact Or.inr ⟨si₀, List.mem_cons_of_mem _ hmem, hrest⟩
        · rw [if_neg hts] at h
          exact Or.inl h

/-- On a successful run, every fetch in the trace got a successful response:
a transport error on any fetch would have aborted the loop. -/
lemma indexLoop_ok_fetch_ok (tsOk : Int → Bool) (parseSig : String → Option String)
    (fetch : String → Except String Tx) (w m : String) (a b : Int)
    (sigs : List SigInfo) :
    ∀ (acc : List Transfer) (calls : List ExtCall) (l : List Transfer) (s : String),
      (indexLoop tsOk parseSig fetch w m a b sigs acc calls).1 = Except.ok l →
      ExtCall.fetchTx s ∈ (indexLoop tsOk parseSig fetch w m a b sigs acc calls).2 →
      ExtCall.fetchTx s ∈ calls ∨ ∃ tx, fetch s = Except.ok tx := by
  induction sigs with
  | nil =>
    intro acc calls l s h1 h2
    simp only [indexLoop] at h2
    exact Or.inl h2
  | cons si rest ih =>
    intro acc calls l s h1 h2
    cases hps : parseSig si.signature with
    | none =>
      simp only [indexLoop, hps] at h1
      exact absurd h1 (by simp)
    | some sg =>
      cases hbt : si.block_time with
      | none =>
        simp only [indexLoop, hps, hbt] at h1 h2
        exact ih acc calls l s h1 h2
      | some t =>
        simp only [indexLoop, hps, hbt] at h1 h2
        by_cases hts : tsOk t
        · rw [if_pos hts] at h1 h2
          by_cases hrange : t < a ∨ b < t
          · rw [if_pos hrange] at h1 h2
            exact ih acc calls l s h1 h2
          · rw [if_neg hrange] at h1 h2
            cases hf : fetch sg with
            | error e =>
              rw [hf] at h1
              exact absurd h1 (by simp)
            | ok tx =>
              rw [hf] at h1 h2
              rcases ih _ _ l s h1 h2 with hc | hok
              · rcases List.mem_append.mp hc with hc2 | hc2
                · exact Or.inl hc2
                · simp only [List.mem_singleton, ExtCall.fetchTx.injEq] at hc2
                  exact Or.inr ⟨tx, hc2 ▸ hf⟩
              · exact Or.inr hok
        · rw [if_neg hts] at h1
          exact absurd h1 (by simp)

/-- A listed signature that fails to parse, or whose present block time is
rejected by the timestamp conversion, forces the whole loop to return an
error, whatever else the list contains. -/
lemma indexLoop_bad_sig_error (tsOk : Int → Bool) (parseSig : String → Option String)
    (fetch : String → Except String Tx) (w m : String) (a b : Int)
    (sigs : List SigInfo) :
    ∀ (acc : List Transfer) (calls : List ExtCall),
      (∃ si ∈ sigs, parseSig si.signature = none ∨
        ∃ t, si.block_time = some t ∧ tsOk t = false) →
      ∃ e, (indexLoop tsOk parseSig fetch w m a b sigs acc calls).1 =
        Except.error e := by
  induction sigs with
  | nil =>
    intro acc calls hbad
    simp at hbad
  | cons si rest ih =>
    intro acc calls hbad
    obtain ⟨si₀, hmem, hbad₀⟩ := hbad
    rcases List.mem_cons.mp hmem with rfl | hmem₀
    · rcases hbad₀ with hnone | ⟨t, hbt, hts⟩
      · refine ⟨"invalid signature", ?_⟩
        simp only [indexLoop, hnone]
      · cases hps : parseSig si₀.signature with
        | none =>
          refine ⟨"invalid signature", ?_⟩
          simp only [indexLoop, hps]
        | some sg =>
          refine ⟨"Invalid timestamp", ?_⟩
          simp only [indexLoop, hps, hbt]
          rw [if_neg (by simp [hts])]
    · cases hps : parseSig si.signature with
      | none => exact ⟨"invalid signature", by simp only [indexLoop, hps]⟩
      | some sg =>
        cases hbt : si.block_time with
        | none =>
          simp only [indexLoop, hps, hbt]
          exact ih acc calls ⟨si₀, hmem₀, hbad₀⟩
        | some t =>
          simp only [indexLoop, hps, hbt]
          by_cases hts : tsOk t
          · rw [if_pos hts]
            by_cases hrange : t < a ∨ b < t
            · rw [if_pos hrange]
              exact ih acc calls ⟨si₀, hmem₀, hbad₀⟩
            · rw [if_neg hrange]
              cases hf : fetch sg with
              | error e => exact ⟨e, rfl⟩
              | ok tx => exact ih _ _ ⟨si₀, hmem₀, hbad₀⟩
          · rw [if_neg hts]
            exact ⟨"Invalid timestamp", rfl⟩

/-- A signature with a parsable signature string but no block time is
skipped: removing it from the list leaves result and trace unchanged. -/
lemma indexLoop_skip_no_block_time (tsOk : Int → Bool)
    (parseSig : String → Option String) (fetch : String → Except String Tx)
    (w m : String) (a b : Int) (nb : SigInfo) (s2 : List SigInfo)
    (hbt : nb.block_time = none) (hps : (parseSig nb.signature).isSome) :
    ∀ (s1 : List SigInfo) (acc : List Transfer) (calls : List ExtCall),
      indexLoop tsOk parseSig fetch w m a b (s1 ++ nb :: s2) acc calls =
        indexLoop tsOk parseSig fetch w m a b (s1 ++ s2) acc calls := by
  intro s1
  induction s1 with
  | nil =>
    intro acc calls
    obtain ⟨sg, hsg⟩ := Option.isSome_iff_exists.mp hps
    simp only [List.nil_append, indexLoop, hsg, hbt]
  | cons si s1t ih =>
    intro acc calls
    cases hps₁ : parseSig si.signature with
    | none => simp only [List.cons_append, indexLoop, hps₁]
    | some sg =>
      cases hbt₁ : si.block_time with
      | none => simp only [List.cons_append, indexLoop, hps₁, hbt₁]; exact ih acc calls
      | some t =>
        simp only [List.cons_append, indexLoop, hps₁, hbt₁]
        by_cases hts : tsOk t
        · rw [if_pos hts, if_pos hts]
          by_cases hrange : t < a ∨ b < t
          · rw [if_pos hrange, if_pos hrange]
            exact ih acc calls
          · rw [if_neg hrange, if_neg hrange]
            cases hf : fetch sg with
            | error e => rfl
            | ok tx => exact ih _ _
        · rw [if_neg hts, if_neg hts]

end Lemmas

/-! Claim theorems. -/

/-- Claim C1 (code bug evidence): the source produces a record although the
post-balance entry's owner differs from the indexed wallet and the wallet is
not flagged as a signer among the account keys — line 96 tests mere
membership in the account-key list, ignoring the signer flag its own comment
and log message promise. -/
theorem c1_attribution_ignores_signer_flag :
    attributionEntry.owner ≠ "W" ∧
    (∀ key ∈ attributionTx.account_keys, ¬(key.pubkey = "W" ∧ key.signer = true)) ∧
    process_transaction attributionTx ("W") "M" 0 ("S") =
      [{ date := 0, amount := |(5 : ℚ) - 0|,
         transfer_type := TransferType.Received, signature := "S" }] :=
  ⟨by decide, by decide, rfl⟩

/-- Claim C2 (counterexample): a balance delta of `2 ^ (-60)` — nonzero but
far below the `f64` machine epsilon `2 ^ (-52)` — still produces a record:
the source compares `pre_amount != post_amount` exactly and has no
negligible-delta threshold. -/
theorem c2_counterexample_negligible_delta_produces_record :
    (0 : ℚ) < mkRat 1 (2 ^ 60) ∧ mkRat 1 (2 ^ 60) < mkRat 1 (2 ^ 52) ∧
    tinyEntry.ui_token_amount.ui_amount = some (mkRat 1 (2 ^ 60)) ∧
    process_transaction tinyDeltaTx ("W") "M" 0 ("S") ≠ [] := by decide

/-- Claim C2 (amended): the no-record guard is exact equality of pre and
post amounts, not an epsilon threshold; any produced record has
`amount = |post - pre|`, strictly positive, with direction `Received`
exactly when the delta is positive and `Sent` exactly when it is negative. -/
theorem c2_amended_exact_zero_threshold (wallet_pubkey usdc_mint_pubkey : String)
    (tx_time : Int) (signature : String) (is_signer : Bool)
    (pre_balances : List TokenBalance) (post_balance : TokenBalance) (tx : Tx) :
    (preAmountOf pre_balances post_balance = postAmountOf post_balance →
      reconcile_entry wallet_pubkey usdc_mint_pubkey tx_time signature is_signer
        pre_balances post_balance = []) ∧
    (∀ r ∈ reconcile_entry wallet_pubkey usdc_mint_pubkey tx_time signature
        is_signer pre_balances post_balance,
      r.amount = |postAmountOf post_balance - preAmountOf pre_balances post_balance| ∧
      0 < r.amount ∧
      (r.transfer_type = TransferType.Received ↔
        preAmountOf pre_balances post_balance < postAmountOf post_balance) ∧
      (r.transfer_type = TransferType.Sent ↔
        postAmountOf post_balance < preAmountOf pre_balances post_balance)) ∧
    (∀ r ∈ process_transaction tx wallet_pubkey usdc_mint_pubkey tx_time signature,
      0 < r.amount) := by
  refine ⟨?_, ?_, ?_⟩
  · intro h
    unfold reconcile_entry
    simp [h]
  · intro r hr
    obtain ⟨-, -, hamt, hne, -, -, hiff⟩ :=
      reconcile_entry_spec _ _ _ _ _ _ _ _ hr
    have hpos : 0 < r.amount :=
      reconcile_entry_amount_pos _ _ _ _ _ _ _ _ hr
    refine ⟨hamt, hpos, hiff, ?_⟩
    cases htt : r.transfer_type with
    | Received =>
      simp only [reduceCtorEq, false_iff]
      intro hlt
      exact absurd (hiff.mp htt) (not_lt_of_gt hlt)
    | Sent =>
      simp only [true_iff]
      have hnlt : ¬ preAmountOf pre_balances post_balance < postAmountOf post_balance :=
        fun hlt => by simp [hiff.mpr hlt] at htt
      exact lt_of_le_of_ne (le_of_not_lt hnlt) fun hc => hne hc.symm
  · intro r hr
    exact (mem_process_transaction _ _ _ _ _ _ hr).2.2

/-- Witness for Claim C2's amended theorem: a zero delta produces no record,
and the sample transaction's record has strictly positive amount. -/
theorem c2_amended_exact_zero_threshold_witness :
    (preAmountOf [] zeroDeltaEntry = postAmountOf zeroDeltaEntry ∧
      reconcile_entry ("W") "M" 0 ("S") false [] zeroDeltaEntry = []) ∧
    (sampleRec1 ∈ process_transaction sampleTx ("W") "M" 10 ("S1") ∧
      0 < sampleRec1.amount) :=
  ⟨⟨by decide,
    (c2_amended_exact_zero_threshold ("W") "M" 0 ("S") false [] zeroDeltaEntry
      sampleTx).1 (by decide)⟩,
   ⟨List.mem_singleton.mpr rfl,
    (c2_amended_exact_zero_threshold ("W") "M" 10 ("S1") false [] zeroDeltaEntry
      sampleTx).2.2 sampleRec1 (List.mem_singleton.mpr rfl)⟩⟩

/-- Claim C3: the reconciler skips post entries of a foreign mint, joins each
remaining post entry to the pre entry with the same account index and mint,
treats a missing counterpart as pre-amount zero, and reads the pre table only
through that keyed join (so the join is not positional). -/
theorem c3_index_keyed_join (wallet_pubkey usdc_mint_pubkey : String)
    (tx_time : Int) (signature : String) (is_signer : Bool)
    (pre_balances : List TokenBalance) (post_balance : TokenBalance) :
    (post_balance.mint ≠ usdc_mint_pubkey →
      reconcile_entry wallet_pubkey usdc_mint_pubkey tx_time signature is_signer
        pre_balances post_balance = []) ∧
    (∀ p, matchPre pre_balances post_balance = some p →
      p.account_index = post_balance.account_index ∧ p.mint = post_balance.mint) ∧
    (matchPre pre_balances post_balance = none →
      preAmountOf pre_balances post_balance = 0) ∧
    (∀ pre2, matchPre pre_balances post_balance = matchPre pre2 post_balance →
      reconcile_entry wallet_pubkey usdc_mint_pubkey tx_time signature is_signer
          pre_balances post_balance =
        reconcile_entry wallet_pubkey usdc_mint_pubkey tx_time signature is_signer
          pre2 post_balance) := by
  refine ⟨?_, ?_, ?_, ?_⟩
  · intro h
    unfold reconcile_entry
    rw [if_pos h]
  · intro p hp
    unfold matchPre at hp
    have hpred := List.find?_some hp
    simpa only [Bool.and_eq_true, beq_iff_eq] using hpred
  · intro h
    unfold preAmountOf
    rw [h]
    rfl
  · intro pre2 h
    exact reconcile_entry_congr _ _ _ _ _ _ _ _ h

/-- Witness for Claim C3 at concrete inputs: a foreign-mint entry yields
nothing; the keyed join finds the index-3 pre entry behind a distractor at
index 1; an absent counterpart gives pre-amount zero; and replacing the pre
table by one with the same join result leaves the output unchanged. -/
theorem c3_index_keyed_join_witness :
    (samplePost.mint ≠ "Z" ∧
      reconcile_entry ("W") "Z" 0 ("S") false [] samplePost = []) ∧
    (matchPre [joinDistractor, samplePre] samplePost = some samplePre ∧
      samplePre.account_index = samplePost.account_index ∧
      samplePre.mint = samplePost.mint) ∧
    (matchPre [] samplePost = none ∧ preAmountOf [] samplePost = 0) ∧
    reconcile_entry ("W") "M" 0 ("S") false [joinDistractor, samplePre] samplePost =
      reconcile_entry ("W") "M" 0 ("S") false [samplePre] samplePost :=
  ⟨⟨by decide, (c3_index_keyed_join ("W") "Z" 0 ("S") false [] samplePost).1 (by decide)⟩,
   ⟨rfl, (c3_index_keyed_join ("W") "M" 0 ("S") false [joinDistractor, samplePre]
      samplePost).2.1 samplePre rfl⟩,
   ⟨rfl, (c3_index_keyed_join ("W") "M" 0 ("S") false [] samplePost).2.2.1 rfl⟩,
   (c3_index_keyed_join ("W") "M" 0 ("S") false [joinDistractor, samplePre]
      samplePost).2.2.2 [samplePre] rfl⟩

/-- Claim C4: every record returned by the driver is timestamped inside the
caller's closed window `[start_time, end_time]`, inclusive at both ends. -/
theorem c4_timestamps_within_window (parsePubkey : String → Option String)
    (tsOk : Int → Bool) (parseSig : String → Option String)
    (listResult : Except String (List SigInfo)) (fetch : String → Except String Tx)
    (wallet usdc_mint : String) (start_time end_time : Int) (l : List Transfer)
    (h : (index_usdc_transfers parsePubkey tsOk parseSig listResult fetch wallet
      usdc_mint start_time end_time).1 = Except.ok l) :
    ∀ r ∈ l, start_time ≤ r.date ∧ r.date ≤ end_time := by
  intro r hr
  cases hw : parsePubkey wallet with
  | none =>
    simp only [index_usdc_transfers, hw] at h
    exact absurd h (by simp)
  | some wpk =>
    cases hm : parsePubkey usdc_mint with
    | none =>
      simp only [index_usdc_transfers, hw, hm] at h
      exact absurd h (by simp)
    | some mpk =>
      cases hl : listResult with
      | error e =>
        simp only [index_usdc_transfers, hw, hm, hl] at h
        exact absurd h (by simp)
      | ok sigs =>
        simp only [index_usdc_transfers, hw, hm, hl] at h
        rw [indexLoop_fst_ok tsOk parseSig fetch wpk mpk start_time end_time sigs
          [] [ExtCall.listSigs] l h, List.nil_append] at hr
        obtain ⟨si, -, hr2⟩ := List.mem_flatMap.mp hr
        exact mem_recordsOfSig_date _ _ _ _ _ _ _ _ _ hr2

/-- Witness for Claim C4: the sample run returns records dated exactly at the
window start and exactly at the window end, both inside `[10, 20]`. -/
theorem c4_timestamps_within_window_witness :
    sampleRun.1 = Except.ok [sampleRec1, sampleRec2] ∧
    (10 ≤ sampleRec1.date ∧ sampleRec1.date ≤ 20) ∧
    (10 ≤ sampleRec2.date ∧ sampleRec2.date ≤ 20) :=
  ⟨rfl,
   c4_timestamps_within_window idParse allTsOk idParse (Except.ok sampleList)
     sampleFetch ("W") ("M") 10 20 [sampleRec1, sampleRec2] rfl sampleRec1
     (by simp),
   c4_timestamps_within_window idParse allTsOk idParse (Except.ok sampleList)
     sampleFetch ("W") ("M") 10 20 [sampleRec1, sampleRec2] rfl sampleRec2
     (by simp)⟩

/-- Claim C5: every transaction fetch in the driver's call trace belongs to a
listed signature whose block time passed the window filter, so the window
test precedes the fetch and out-of-range signatures are never fetched. -/
theorem c5_fetch_only_after_window_filter (parsePubkey : String → Option String)
    (tsOk : Int → Bool) (parseSig : String → Option String)
    (fetch : String → Except String Tx) (wallet usdc_mint : String)
    (start_time end_time : Int) (sigs : List SigInfo) (s : String)
    (hmem : ExtCall.fetchTx s ∈ (index_usdc_transfers parsePubkey tsOk parseSig
      (Except.ok sigs) fetch wallet usdc_mint start_time end_time).2) :
    ∃ si ∈ sigs, parseSig si.signature = some s ∧
      ∃ t, si.block_time = some t ∧ tsOk t = true ∧
        start_time ≤ t ∧ t ≤ end_time := by
  cases hw : parsePubkey wallet with
  | none =>
    simp only [index_usdc_transfers, hw] at hmem
    exact absurd hmem (by simp)
  | some wpk =>
    cases hm : parsePubkey usdc_mint with
    | none =>
      simp only [index_usdc_transfers, hw, hm] at hmem
      exact absurd hmem (by simp)
    | some mpk =>
      simp only [index_usdc_transfers, hw, hm] at hmem
      rcases indexLoop_fetch_in_trace tsOk parseSig fetch wpk mpk start_time
        end_time sigs [] [ExtCall.listSigs] s hmem with hc | hgood
      · exact absurd hc (by simp)
      · exact hgood

/-- Witness for Claim C5: the sample run fetched `S1`, and indeed `S1` is
listed with block time 10 inside the window `[10, 20]`. -/
theorem c5_fetch_only_after_window_filter_witness :
    ExtCall.fetchTx ("S1") ∈ sampleRun.2 ∧
    ∃ si ∈ sampleList, idParse si.signature = some ("S1") ∧
      ∃ t, si.block_time = some t ∧ allTsOk t = true ∧ 10 ≤ t ∧ t ≤ 20 :=
  ⟨by decide,
   c5_fetch_only_after_window_filter idParse allTsOk idParse sampleFetch
     ("W") ("M") 10 20 sampleList ("S1") (by decide)⟩

/-- Claim C6: a transaction without metadata yields no records, and a listed
signature with no block time is skipped outright — deleting it from the
signature list changes neither the result nor the call trace, so the call
still succeeds. -/
theorem c6_missing_data_skipped_not_error (parsePubkey : String → Option String)
    (tsOk : Int → Bool) (parseSig : String → Option String)
    (fetch : String → Except String Tx) (wallet usdc_mint : String)
    (start_time end_time : Int) :
    (∀ (tx : Tx) (tx_time : Int) (signature : String), tx.meta = none →
      process_transaction tx wallet usdc_mint tx_time signature = []) ∧
    (∀ (s1 : List SigInfo) (nb : SigInfo) (s2 : List SigInfo),
      nb.block_time = none → (parseSig nb.signature).isSome →
      index_usdc_transfers parsePubkey tsOk parseSig (Except.ok (s1 ++ nb :: s2))
          fetch wallet usdc_mint start_time end_time =
        index_usdc_transfers parsePubkey tsOk parseSig (Except.ok (s1 ++ s2))
          fetch wallet usdc_mint start_time end_time) := by
  constructor
  · intro tx tx_time signature hmeta
    unfold process_transaction
    rw [hmeta]
  · intro s1 nb s2 hbt hps
    cases hw : parsePubkey wallet with
    | none => simp only [index_usdc_transfers, hw]
    | some wpk =>
      cases hm : parsePubkey usdc_mint with
      | none => simp only [index_usdc_transfers, hw, hm]
      | some mpk =>
        simp only [index_usdc_transfers, hw, hm]
        exact indexLoop_skip_no_block_time tsOk parseSig fetch wpk mpk start_time
          end_time nb s2 hbt hps s1 [] [ExtCall.listSigs]

/-- Witness for Claim C6: a metadata-less transaction yields no records, and
dropping the no-block-time signature `NB` from a concrete list leaves the
driver's output identical. -/
theorem c6_missing_data_skipped_not_error_witness :
    ((⟨none, []⟩ : Tx).meta = none ∧
      process_transaction ⟨none, []⟩ "W" "M" 0 ("S") = []) ∧
    ((⟨"NB", none⟩ : SigInfo).block_time = none ∧
      index_usdc_transfers idParse allTsOk idParse
          (Except.ok ([⟨"S1", some 10⟩] ++ ⟨"NB", none⟩ :: []))
          sampleFetch ("W") "M" 10 20 =
        index_usdc_transfers idParse allTsOk idParse
          (Except.ok ([⟨"S1", some 10⟩] ++ []))
          sampleFetch ("W") "M" 10 20) :=
  ⟨⟨rfl, (c6_missing_data_skipped_not_error idParse allTsOk idParse sampleFetch
      "W" "M" 10 20).1 ⟨none, []⟩ 0 ("S") rfl⟩,
   ⟨rfl, (c6_missing_data_skipped_not_error idParse allTsOk idParse sampleFetch
      "W" "M" 10 20).2 [⟨"S1", some 10⟩] ⟨"NB", none⟩ [] rfl (by decide)⟩⟩

/-- Claim C7: an unparsable wallet or mint address fails the call with an
empty call trace (before any external call); a transport error from the
signature listing aborts with that error after the single listing call; and
a successful result implies every fetch in the trace succeeded, so a fetch
transport error can never leave a partial result. -/
theorem c7_parse_failure_and_transport_errors_abort
    (parsePubkey : String → Option String) (tsOk : Int → Bool)
    (parseSig : String → Option String) (listResult : Except String (List SigInfo))
    (fetch : String → Except String Tx) (wallet usdc_mint : String)
    (start_time end_time : Int) :
    (parsePubkey wallet = none →
      index_usdc_transfers parsePubkey tsOk parseSig listResult fetch wallet
          usdc_mint start_time end_time =
        (Except.error ("invalid wallet address"), [])) ∧
    (parsePubkey usdc_mint = none →
      (index_usdc_transfers parsePubkey tsOk parseSig listResult fetch wallet
          usdc_mint start_time end_time).2 = [] ∧
      ∃ e, (index_usdc_transfers parsePubkey tsOk parseSig listResult fetch wallet
          usdc_mint start_time end_time).1 = Except.error e) ∧
    (∀ wpk mpk e, parsePubkey wallet = some wpk → parsePubkey usdc_mint = some mpk →
      listResult = Except.error e →
      index_usdc_transfers parsePubkey tsOk parseSig listResult fetch wallet
          usdc_mint start_time end_time =
        (Except.error e, [ExtCall.listSigs])) ∧
    (∀ (l : List Transfer) (s : String),
      (index_usdc_transfers parsePubkey tsOk parseSig listResult fetch wallet
        usdc_mint start_time end_time).1 = Except.ok l →
      ExtCall.fetchTx s ∈ (index_usdc_transfers parsePubkey tsOk parseSig
        listResult fetch wallet usdc_mint start_time end_time).2 →
      ∃ tx, fetch s = Except.ok tx) := by
  refine ⟨?_, ?_, ?_, ?_⟩
  · intro hw
    simp only [index_usdc_transfers, hw]
  · intro hm
    cases hw : parsePubkey wallet with
    | none =>
      simp only [index_usdc_transfers, hw]
      exact ⟨trivial, "invalid wallet address", rfl⟩
    | some wpk =>
      simp only [index_usdc_transfers, hw, hm]
      exact ⟨trivial, "invalid mint address", rfl⟩
  · intro wpk mpk e hw hm hl
    simp only [index_usdc_transfers, hw, hm, hl]
  · intro l s hok hmem
    cases hw : parsePubkey wallet with
    | none =>
      simp only [index_usdc_transfers, hw] at hok
      exact absurd hok (by simp)
    | some wpk =>
      cases hm : parsePubkey usdc_mint with
      | none =>
        simp only [index_usdc_transfers, hw, hm] at hok
        exact absurd hok (by simp)
      | some mpk =>
        cases hl : listResult with
        | error e =>
          simp only [index_usdc_transfers, hw, hm, hl] at hok
          exact absurd hok (by simp)
        | ok sigs =>
          simp only [index_usdc_transfers, hw, hm, hl] at hok hmem
          rcases indexLoop_ok_fetch_ok tsOk parseSig fetch wpk mpk start_time
            end_time sigs [] [ExtCall.listSigs] l s hok hmem with hc | hfound
          · exact absurd hc (by simp)
          · exact hfound

/-- Witness for Claim C7: a rejecting address parser makes the driver fail
with no external calls; an error from the listing call is propagated with
only the listing call in the trace; and the successful sample run implies
its fetched signature `S1` got a successful response. -/
theorem c7_parse_failure_and_transport_errors_abort_witness :
    (noParse ("BADADDR") = none ∧
      index_usdc_transfers noParse allTsOk idParse (Except.ok sampleList)
          sampleFetch ("BADADDR") "M" 10 20 =
        (Except.error ("invalid wallet address"), [])) ∧
    (index_usdc_transfers idParse allTsOk idParse (Except.error ("boom"))
        sampleFetch ("W") "M" 10 20 =
      (Except.error ("boom"), [ExtCall.listSigs])) ∧
    (∃ tx, sampleFetch ("S1") = Except.ok tx) :=
  ⟨⟨rfl, (c7_parse_failure_and_transport_errors_abort noParse allTsOk idParse
      (Except.ok sampleList) sampleFetch ("BADADDR") "M" 10 20).1 rfl⟩,
   (c7_parse_failure_and_transport_errors_abort idParse allTsOk idParse
      (Except.error ("boom")) sampleFetch ("W") "M" 10 20).2.2.1 ("W") "M" "boom"
      rfl rfl rfl,
   (c7_parse_failure_and_transport_errors_abort idParse allTsOk idParse
      (Except.ok sampleList) sampleFetch ("W") "M" 10 20).2.2.2
      [sampleRec1, sampleRec2] "S1" rfl (by decide)⟩

/-- Claim C8: a successful result is exactly the concatenation, in
signature-list order, of each signature's records in the order the
reconciler produced them — no sorting by timestamp afterwards. -/
theorem c8_order_follows_signature_list (parsePubkey : String → Option String)
    (tsOk : Int → Bool) (parseSig : String → Option String)
    (fetch : String → Except String Tx) (wallet usdc_mint : String)
    (start_time end_time : Int) (wpk mpk : String) (sigs : List SigInfo)
    (l : List Transfer)
    (hw : parsePubkey wallet = some wpk) (hm : parsePubkey usdc_mint = some mpk)
    (hok : (index_usdc_transfers parsePubkey tsOk parseSig (Except.ok sigs) fetch
      wallet usdc_mint start_time end_time).1 = Except.ok l) :
    l = sigs.flatMap (recordsOfSig tsOk parseSig fetch wpk mpk start_time
      end_time) := by
  simp only [index_usdc_transfers, hw, hm] at hok
  simpa using indexLoop_fst_ok tsOk parseSig fetch wpk mpk start_time end_time
    sigs [] [ExtCall.listSigs] l hok

/-- Witness for Claim C8: the sample run's records are exactly the
flat map of per-signature contributions over the sample list. -/
theorem c8_order_follows_signature_list_witness :
    sampleRun.1 = Except.ok [sampleRec1, sampleRec2] ∧
    [sampleRec1, sampleRec2] =
      sampleList.flatMap (recordsOfSig allTsOk idParse sampleFetch ("W") "M" 10 20) :=
  ⟨rfl,
   c8_order_follows_signature_list idParse allTsOk idParse sampleFetch ("W") "M"
     10 20 ("W") "M" sampleList [sampleRec1, sampleRec2] rfl rfl rfl⟩

/-- Claim C9: one listed signature that fails to parse, or whose present
block time the timestamp conversion rejects, makes the whole call return an
error — all results are forfeited. -/
theorem c9_malformed_signature_aborts_all (parsePubkey : String → Option String)
    (tsOk : Int → Bool) (parseSig : String → Option String)
    (fetch : String → Except String Tx) (wallet usdc_mint : String)
    (start_time end_time : Int) (sigs : List SigInfo)
    (hbad : ∃ si ∈ sigs, parseSig si.signature = none ∨
      ∃ t, si.block_time = some t ∧ tsOk t = false) :
    ∃ e, (index_usdc_transfers parsePubkey tsOk parseSig (Except.ok sigs) fetch
      wallet usdc_mint start_time end_time).1 = Except.error e := by
  cases hw : parsePubkey wallet with
  | none =>
    exact ⟨"invalid wallet address", by simp only [index_usdc_transfers, hw]⟩
  | some wpk =>
    cases hm : parsePubkey usdc_mint with
    | none =>
      exact ⟨"invalid mint address", by simp only [index_usdc_transfers, hw, hm]⟩
    | some mpk =>
      simp only [index_usdc_transfers, hw, hm]
      exact indexLoop_bad_sig_error tsOk parseSig fetch wpk mpk start_time
        end_time sigs [] [ExtCall.listSigs] hbad

/-- Witness for Claim C9: with a parser rejecting the listed string `BAD`,
the whole call errors even though the list also holds a good signature. -/
theorem c9_malformed_signature_aborts_all_witness :
    ((⟨"BAD", some 15⟩ : SigInfo) ∈ badList ∧ rejectBad ("BAD") = none) ∧
    ∃ e, (index_usdc_transfers idParse allTsOk rejectBad (Except.ok badList)
      sampleFetch ("W") "M" 0 100).1 = Except.error e :=
  ⟨⟨by decide, rfl⟩,
   c9_malformed_signature_aborts_all idParse allTsOk rejectBad sampleFetch
     "W" "M" 0 100 badList ⟨⟨"BAD", some 15⟩, by decide, Or.inl rfl⟩⟩

/-- Claim C10: the reconciler is driven solely by post-balance entries: an
empty post table yields no records whatever the pre table holds, and a pre
entry whose account index and mint match no post entry — a token account
closed during the transaction — contributes nothing, even when wallet-owned
with a balance drop. -/
theorem c10_reconciler_post_driven (wallet_pubkey usdc_mint_pubkey : String)
    (tx_time : Int) (signature : String) (keys : List AccountKey)
    (pre posts : List TokenBalance) (p : TokenBalance) :
    (process_transaction ⟨some ⟨some pre, some []⟩, keys⟩ wallet_pubkey
      usdc_mint_pubkey tx_time signature = []) ∧
    ((∀ pb ∈ posts, ¬(p.account_index = pb.account_index ∧ p.mint = pb.mint)) →
      process_transaction ⟨some ⟨some (p :: pre), some posts⟩, keys⟩ wallet_pubkey
          usdc_mint_pubkey tx_time signature =
        process_transaction ⟨some ⟨some pre, some posts⟩, keys⟩ wallet_pubkey
          usdc_mint_pubkey tx_time signature) := by
  constructor
  · simp [process_transaction]
  · intro hno
    rw [process_transaction_eq_flatMap, process_transaction_eq_flatMap]
    simp only [Option.getD_some]
    refine flatMap_congr fun pb hpb => ?_
    refine reconcile_entry_congr _ _ _ _ _ _ _ _ ?_
    unfold matchPre
    rw [List.find?_cons_of_neg]
    simp only [Bool.and_eq_true, beq_iff_eq, not_and]
    intro h1 h2
    exact absurd ⟨h1, h2⟩ (hno pb hpb)

/-- Witness for Claim C10: adding the closed index-9 account to the pre
table of the sample transaction leaves the output unchanged. -/
theorem c10_reconciler_post_driven_witness :
    (∀ pb ∈ [samplePost],
      ¬(closedAccount.account_index = pb.account_index ∧
        closedAccount.mint = pb.mint)) ∧
    process_transaction ⟨some ⟨some (closedAccount :: [samplePre]),
        some [samplePost]⟩, []⟩ "W" "M" 0 ("S") =
      process_transaction ⟨some ⟨some [samplePre], some [samplePost]⟩, []⟩
        "W" "M" 0 ("S") :=
  ⟨by decide,
   (c10_reconciler_post_driven ("W") "M" 0 ("S") [] [samplePre] [samplePost]
     closedAccount).2 (by decide)⟩
